import Mathlib

/-!
Verification of the label-mask size filter from
`src/main/resources/script_templates/PyImageJ/CellposeStarDistSegmentation.py`
(functions `filter_index_image` and `get_bounding_box`).

A mask is modelled as a list of rows of integers (the integer `np.ndarray`).
Every definition below is a direct translation of the corresponding line(s)
of the Python source; spec-side definitions (full-grid scan counts, the
pointwise filter specification, the error taxonomy) are clearly marked.
-/

/-- A label mask: a 2-D grid of integers stored as a list of rows. -/
abbrev Mask := List (List Int)

/-- The value of `narr` at row `r`, column `c`, when `(r, c)` is inside the grid. -/
def cellAt (narr : Mask) (r c : Nat) : Option Int :=
  narr[r]?.bind (fun row => row[c]?)

/-- Row-major coordinates of the cells equal to `label`: `np.where(narr == label)`,
with the two parallel index arrays fused into one list of `(row, column)` pairs. -/
def coordsOf (narr : Mask) (label : Int) : List (Nat × Nat) :=
  (narr.enum.map (fun p => p.2.enum.filterMap
      (fun q => if q.2 = label then some (p.1, q.1) else none))).flatten

/-- Source `get_bounding_box`: the minima and maxima of the row-index and
column-index arrays (`np.min`/`np.max` of `indices[0]` and `indices[1]`).
`np.min` of an empty array raises in Python; that case is modelled by `none`. -/
def get_bounding_box (indices : List (Nat × Nat)) : Option (Nat × Nat × Nat × Nat) :=
  match indices with
  | [] => none
  | p :: ps =>
      some ((ps.map Prod.fst).foldl min p.1,
            (ps.map Prod.snd).foldl min p.2,
            (ps.map Prod.fst).foldl max p.1,
            (ps.map Prod.snd).foldl max p.2)

/-- Source crop `narr[bbox[0]:bbox[2] + 1, bbox[1]:bbox[3] + 1]`. -/
def cropGrid (narr : Mask) (r0 c0 r1 c1 : Nat) : Mask :=
  ((narr.drop r0).take (r1 + 1 - r0)).map (fun row => (row.drop c0).take (c1 + 1 - c0))

/-- Source `bbox_crop[bbox_crop != label] = 0`. -/
def zeroNonLabel (label : Int) (g : Mask) : Mask :=
  g.map (List.map (fun v => if v ≠ label then 0 else v))

/-- Source `bbox_crop.astype(bool)` followed by `np.sum`: the number of nonzero cells. -/
def countNonzero (g : Mask) : Nat :=
  (g.map (fun row => row.countP (fun v => v != 0))).sum

/-- Lines 111–117 of the source: the size of `label` computed through the
bounding-box crop. `none` models the `ValueError` that `np.min` of an empty
index array would raise (never reached from the loop, see below). -/
def label_size_via_bbox (narr : Mask) (label : Int) : Option Nat :=
  match get_bounding_box (coordsOf narr label) with
  | none => none
  | some (r0, c0, r1, c1) =>
      some (countNonzero (zeroNonLabel label (cropGrid narr r0 c0 r1 c1)))

/-- Source `narr[narr == label] = 0`. -/
def zeroLabel (narr : Mask) (label : Int) : Mask :=
  narr.map (List.map (fun v => if v = label then 0 else v))

/-- One iteration of the `for label in unique` loop body for a non-background label:
compute the label's size through its bounding box, and if the size is outside the
inclusive range, zero every cell holding the label. -/
def processLabel (narr : Mask) (label mn mx : Int) : Mask :=
  match label_size_via_bbox narr label with
  | none => narr
  | some n => if ¬ (mn ≤ (n : Int) ∧ (n : Int) ≤ mx) then zeroLabel narr label else narr

/-- The `for label in unique` loop over an explicit list of candidate labels,
skipping the background value `0`. -/
def processLabels (narr : Mask) (mn mx : Int) (labels : List Int) : Mask :=
  labels.foldl (fun acc label => if label = 0 then acc else processLabel acc label mn mx) narr

/-- Source `np.unique(narr)`: the distinct values of the grid in ascending order. -/
def uniqueValues (narr : Mask) : List Int :=
  (narr.flatten.dedup).insertionSort (· ≤ ·)

/-- Source `filter_index_image`: filter an index image's labels with a pixel
size range. -/
def filter_index_image (narr : Mask) (min_size max_size : Int) : Mask :=
  processLabels narr min_size max_size (uniqueValues narr)

/-- Modelled from the spec: the error taxonomy (`InvalidRangeError`,
`InvalidMaskError`) of §7. The source script defines no such classes. -/
inductive FilterError where
  | invalidRangeError
  | invalidMaskError
deriving DecidableEq

/-- A call of `filter_index_image` with the error channel made explicit.
The source body contains no `raise` and no input validation of any kind,
so every call returns normally. -/
def filter_index_image_run (narr : Mask) (mn mx : Int) : Except FilterError Mask :=
  Except.ok (filter_index_image narr mn mx)

/-- Spec-side: the pixel count of value `v`, recomputed by a full-grid scan,
independent of the bounding-box shortcut. -/
def countLabel (narr : Mask) (v : Int) : Nat :=
  narr.flatten.count v

/-- Spec-side: whether a label of pixel count `n` is kept by the inclusive
range `[mn, mx]`. -/
def keepSize (mn mx : Int) (n : Nat) : Bool :=
  decide (mn ≤ (n : Int) ∧ (n : Int) ≤ mx)

/-- Spec-side: whether the label value `v` is kept, judged on its full-grid count. -/
def keepLabel (narr : Mask) (mn mx v : Int) : Bool :=
  keepSize mn mx (countLabel narr v)

/-- Spec-side: what a single cell becomes under the filter — background stays,
kept labels stay, out-of-range labels are zeroed. -/
def specCell (narr : Mask) (mn mx : Int) (v : Int) : Int :=
  if v = 0 then 0 else if keepLabel narr mn mx v then v else 0

/-- Spec-side: the pointwise specification of the whole filter. -/
def filterSpec (narr : Mask) (mn mx : Int) : Mask :=
  narr.map (List.map (specCell narr mn mx))

/-- A cell after the labels in `done` have been processed: an out-of-range
label in `done` has been zeroed, everything else is untouched. -/
def stageCell (narr : Mask) (mn mx : Int) (done : List Int) (v : Int) : Int :=
  if v ≠ 0 ∧ v ∈ done ∧ keepLabel narr mn mx v = false then 0 else v

/-- The mask after the labels in `done` have been processed. -/
def stageMask (narr : Mask) (mn mx : Int) (done : List Int) : Mask :=
  narr.map (List.map (stageCell narr mn mx done))

/-- A rectangular grid: every row has the length of the first row. -/
def Rectangular (narr : Mask) : Prop :=
  ∀ row ∈ narr, row.length = (narr.headD []).length

instance decidableRectangular (narr : Mask) : Decidable (Rectangular narr) :=
  decidable_of_iff (∀ row ∈ narr, row.length = (narr.headD []).length) Iff.rfl

example : filter_index_image [[1, 1, 2], [0, 1, 2]] 2 5 = [[1, 1, 2], [0, 1, 2]] := by decide

example : filter_index_image [[1, 1, 2], [0, 1, 2]] 3 5 = [[1, 1, 0], [0, 1, 0]] := by decide

example : filter_index_image [[1, 0, 1]] 2 2 = [[1, 0, 1]] := by decide

example : filter_index_image [[1]] 5 2 = [[0]] := by decide

example : label_size_via_bbox [[1, 0, 1], [0, 0, 1]] 1 = some 3 := by decide

theorem mem_coordsOf {narr : Mask} {label : Int} {r c : Nat} :
    (r, c) ∈ coordsOf narr label ↔ cellAt narr r c = some label := by
  simp only [coordsOf, cellAt, List.mem_flatten, List.mem_map]
  constructor
  · rintro ⟨_, ⟨p, hp, rfl⟩, hmem⟩
    rw [List.mem_filterMap] at hmem
    obtain ⟨q, hq, hqe⟩ := hmem
    by_cases h : q.2 = label
    · simp only [h, if_pos, Option.some.injEq, Prod.mk.injEq] at hqe
      obtain ⟨h1, h2⟩ := hqe
      rw [List.mem_enum_iff_getElem?] at hp hq
      subst h1; subst h2
      rw [hp]
      simpa [h] using hq
    · simp [h] at hqe
  · intro hcell
    obtain ⟨row, hrow, hval⟩ : ∃ row, narr[r]? = some row ∧ row[c]? = some label := by
      cases hnr : narr[r]? with
      | none => simp [hnr] at hcell
      | some row => exact ⟨row, rfl, by simpa [hnr] using hcell⟩
    refine ⟨_, ⟨(r, row), List.mem_enum_iff_getElem?.mpr hrow, rfl⟩, ?_⟩
    rw [List.mem_filterMap]
    exact ⟨(c, label), List.mem_enum_iff_getElem?.mpr hval, by simp⟩

theorem mem_flatten_iff_cell {narr : Mask} {label : Int} :
    label ∈ narr.flatten ↔ ∃ r c, cellAt narr r c = some label := by
  rw [List.mem_flatten]
  constructor
  · rintro ⟨row, hrow, hval⟩
    obtain ⟨r, hr⟩ := List.mem_iff_getElem?.mp hrow
    obtain ⟨c, hc⟩ := List.mem_iff_getElem?.mp hval
    exact ⟨r, c, by simp [cellAt, hr, hc]⟩
  · rintro ⟨r, c, hcell⟩
    cases hnr : narr[r]? with
    | none => simp [cellAt, hnr] at hcell
    | some row =>
        refine ⟨row, List.mem_iff_getElem?.mpr ⟨r, hnr⟩, ?_⟩
        rw [cellAt, hnr] at hcell
        exact List.mem_iff_getElem?.mpr ⟨c, hcell⟩

theorem coordsOf_ne_nil {narr : Mask} {label : Int} (h : label ∈ narr.flatten) :
    coordsOf narr label ≠ [] := by
  obtain ⟨r, c, hcell⟩ := mem_flatten_iff_cell.mp h
  exact List.ne_nil_of_mem (mem_coordsOf.mpr hcell)

theorem foldl_min_le_init (l : List Nat) (a : Nat) : l.foldl min a ≤ a := by
  induction l generalizing a with
  | nil => simp
  | cons x xs ih => exact le_trans (ih (min a x)) (min_le_left a x)

theorem foldl_min_le_mem {l : List Nat} {x : Nat} (h : x ∈ l) (a : Nat) :
    l.foldl min a ≤ x := by
  induction l generalizing a with
  | nil => simp at h
  | cons y ys ih =>
      rcases List.mem_cons.mp h with rfl | hmem
      · exact le_trans (foldl_min_le_init ys (min a x)) (min_le_right a x)
      · exact ih hmem (min a y)

theorem le_foldl_max_init (l : List Nat) (a : Nat) : a ≤ l.foldl max a := by
  induction l generalizing a with
  | nil => simp
  | cons x xs ih => exact le_trans (le_max_left a x) (ih (max a x))

theorem le_foldl_max_mem {l : List Nat} {x : Nat} (h : x ∈ l) (a : Nat) :
    x ≤ l.foldl max a := by
  induction l generalizing a with
  | nil => simp at h
  | cons y ys ih =>
      rcases List.mem_cons.mp h with rfl | hmem
      · exact le_trans (le_max_right a x) (le_foldl_max_init ys (max a x))
      · exact ih hmem (max a y)

theorem bbox_bounds {ps : List (Nat × Nat)} {r0 c0 r1 c1 : Nat}
    (h : get_bounding_box ps = some (r0, c0, r1, c1)) :
    (∀ p ∈ ps, r0 ≤ p.1 ∧ p.1 ≤ r1 ∧ c0 ≤ p.2 ∧ p.2 ≤ c1) ∧ r0 ≤ r1 ∧ c0 ≤ c1 := by
  match ps with
  | [] => simp [get_bounding_box] at h
  | p :: tail =>
      rw [get_bounding_box, Option.some.injEq, Prod.mk.injEq, Prod.mk.injEq,
        Prod.mk.injEq] at h
      obtain ⟨h0, h1, h2, h3⟩ := h
      subst h0; subst h1; subst h2; subst h3
      have hhead : (tail.map Prod.fst).foldl min p.1 ≤ p.1 ∧
          p.1 ≤ (tail.map Prod.fst).foldl max p.1 ∧
          (tail.map Prod.snd).foldl min p.2 ≤ p.2 ∧
          p.2 ≤ (tail.map Prod.snd).foldl max p.2 :=
        ⟨foldl_min_le_init _ _, le_foldl_max_init _ _,
         foldl_min_le_init _ _, le_foldl_max_init _ _⟩
      refine ⟨?_, le_trans hhead.1 hhead.2.1, le_trans hhead.2.2.1 hhead.2.2.2⟩
      intro q hq
      rcases List.mem_cons.mp hq with rfl | hmem
      · exact ⟨hhead.1, hhead.2.1, hhead.2.2.1, hhead.2.2.2⟩
      · have hf : q.1 ∈ tail.map Prod.fst := List.mem_map.mpr ⟨q, hmem, rfl⟩
        have hs : q.2 ∈ tail.map Prod.snd := List.mem_map.mpr ⟨q, hmem, rfl⟩
        exact ⟨foldl_min_le_mem hf _, le_foldl_max_mem hf _,
               foldl_min_le_mem hs _, le_foldl_max_mem hs _⟩

theorem count_take_eq_zero {row : List Int} {label : Int} {n : Nat}
    (h : ∀ c, row[c]? = some label → n ≤ c) : (row.take n).count label = 0 := by
  rw [List.count_eq_zero]
  intro hmem
  obtain ⟨i, hi⟩ := List.mem_iff_getElem?.mp hmem
  rw [List.getElem?_take] at hi
  by_cases hlt : i < n
  · rw [if_pos hlt] at hi
    exact absurd (h i hi) (Nat.not_le.mpr hlt)
  · rw [if_neg hlt] at hi
    exact Option.noConfusion hi

theorem count_drop_eq_zero {row : List Int} {label : Int} {m : Nat}
    (h : ∀ c, row[c]? = some label → c ≤ m) : (row.drop (m + 1)).count label = 0 := by
  rw [List.count_eq_zero]
  intro hmem
  obtain ⟨i, hi⟩ := List.mem_iff_getElem?.mp hmem
  rw [List.getElem?_drop] at hi
  have := h (m + 1 + i) hi
  omega

theorem count_slice_row {row : List Int} {label : Int} {c0 c1 : Nat}
    (hb : ∀ c, row[c]? = some label → c0 ≤ c ∧ c ≤ c1) (hc : c0 ≤ c1) :
    ((row.drop c0).take (c1 + 1 - c0)).count label = row.count label := by
  have hsplit : row.count label = (row.take c0).count label + (row.drop c0).count label := by
    conv_lhs => rw [← List.take_append_drop c0 row]
    exact List.count_append label _ _
  have htake : (row.take c0).count label = 0 :=
    count_take_eq_zero (fun c hcell => (hb c hcell).1)
  have hsplit2 : (row.drop c0).count label =
      ((row.drop c0).take (c1 + 1 - c0)).count label +
      ((row.drop c0).drop (c1 + 1 - c0)).count label := by
    conv_lhs => rw [← List.take_append_drop (c1 + 1 - c0) (row.drop c0)]
    exact List.count_append label _ _
  have hdd : (row.drop c0).drop (c1 + 1 - c0) = row.drop (c1 + 1) := by
    rw [List.drop_drop]
    congr 1
    omega
  have hdrop : (row.drop (c1 + 1)).count label = 0 :=
    count_drop_eq_zero (fun c hcell => (hb c hcell).2)
  rw [hsplit, htake, hsplit2, hdd, hdrop]
  omega

theorem row_count_eq_zero_of_lt {narr : Mask} {label : Int} {r0 : Nat} {row : List Int}
    {i : Nat} (hrow : narr[i]? = some row) (hlt : i < r0)
    (hb : ∀ r c, cellAt narr r c = some label → r0 ≤ r) :
    row.count label = 0 := by
  rw [List.count_eq_zero]
  intro hmem
  obtain ⟨c, hc⟩ := List.mem_iff_getElem?.mp hmem
  have : r0 ≤ i := hb i c (by simp [cellAt, hrow, hc])
  omega

theorem count_cropGrid {narr : Mask} {label : Int} {r0 c0 r1 c1 : Nat}
    (hb : ∀ r c, cellAt narr r c = some label → r0 ≤ r ∧ r ≤ r1 ∧ c0 ≤ c ∧ c ≤ c1)
    (hr : r0 ≤ r1) (hc : c0 ≤ c1) :
    (cropGrid narr r0 c0 r1 c1).flatten.count label = countLabel narr label := by
  have hcol : ∀ row ∈ narr, ∀ c, row[c]? = some label → c0 ≤ c ∧ c ≤ c1 := by
    intro row hrow c hcell
    obtain ⟨i, hi⟩ := List.mem_iff_getElem?.mp hrow
    have := hb i c (by simp [cellAt, hi, hcell])
    exact ⟨this.2.2.1, this.2.2.2⟩
  set middle := (narr.drop r0).take (r1 + 1 - r0) with hmid
  have hmidmem : ∀ row ∈ middle, row ∈ narr := by
    intro row hrow
    exact ((List.take_sublist _ _).trans (List.drop_sublist _ _)).mem hrow
  have hcrop : (cropGrid narr r0 c0 r1 c1).flatten.count label =
      (middle.map (List.count label)).sum := by
    rw [List.count_flatten, cropGrid, ← hmid, List.map_map]
    congr 1
    refine List.map_congr_left ?_
    intro row hrow
    exact count_slice_row (hcol row (hmidmem row hrow)) hc
  have h1 : (narr.drop r0).drop (r1 + 1 - r0) = narr.drop (r1 + 1) := by
    rw [List.drop_drop]
    congr 1
    omega
  have hdecomp : narr = narr.take r0 ++ (middle ++ narr.drop (r1 + 1)) := by
    rw [hmid, ← h1, List.take_append_drop, List.take_append_drop]
  have hfull : countLabel narr label = (middle.map (List.count label)).sum := by
    rw [countLabel, List.count_flatten]
    conv_lhs => rw [hdecomp]
    rw [List.map_append, List.map_append, List.sum_append, List.sum_append]
    have hsum1 : ((narr.take r0).map (List.count label)).sum = 0 := by
      refine List.sum_eq_zero ?_
      intro x hx
      obtain ⟨row, hrow, rfl⟩ := List.mem_map.mp hx
      obtain ⟨i, hi⟩ := List.mem_iff_getElem?.mp hrow
      rw [List.getElem?_take] at hi
      by_cases hlt : i < r0
      · rw [if_pos hlt] at hi
        exact row_count_eq_zero_of_lt hi hlt (fun r c hcell => (hb r c hcell).1)
      · rw [if_neg hlt] at hi
        exact Option.noConfusion hi
    have hsum2 : ((narr.drop (r1 + 1)).map (List.count label)).sum = 0 := by
      refine List.sum_eq_zero ?_
      intro x hx
      obtain ⟨row, hrow, rfl⟩ := List.mem_map.mp hx
      obtain ⟨i, hi⟩ := List.mem_iff_getElem?.mp hrow
      rw [List.getElem?_drop] at hi
      rw [List.count_eq_zero]
      intro hmem
      obtain ⟨c, hcell⟩ := List.mem_iff_getElem?.mp hmem
      have := hb (r1 + 1 + i) c (by simp [cellAt, hi, hcell])
      omega
    rw [hsum1, hsum2]
    omega
  rw [hcrop, hfull]

theorem countNonzero_zeroNonLabel {label : Int} (h0 : label ≠ 0) (g : Mask) :
    countNonzero (zeroNonLabel label g) = (g.map (List.count label)).sum := by
  rw [countNonzero, zeroNonLabel, List.map_map]
  congr 1
  refine List.map_congr_left ?_
  intro row _
  show ((row.map (fun v => if v ≠ label then 0 else v)).countP (fun v => v != 0)) = _
  rw [List.countP_map, List.count_eq_countP]
  refine List.countP_congr ?_
  intro v _
  by_cases h : v = label
  · simp [Function.comp, h, h0]
  · simp [Function.comp, h]

theorem label_size_via_bbox_eq {narr : Mask} {label : Int} (h0 : label ≠ 0)
    (hocc : label ∈ narr.flatten) :
    label_size_via_bbox narr label = some (countLabel narr label) := by
  have hne : coordsOf narr label ≠ [] := coordsOf_ne_nil hocc
  cases hcoords : coordsOf narr label with
  | nil => exact absurd hcoords hne
  | cons p tail =>
      cases hbb : get_bounding_box (p :: tail) with
      | none => rw [get_bounding_box] at hbb; exact Option.noConfusion hbb
      | some bb =>
          obtain ⟨r0, c0, r1, c1⟩ := bb
          obtain ⟨hmem, hr, hc⟩ := bbox_bounds hbb
          have hb : ∀ r c, cellAt narr r c = some label →
              r0 ≤ r ∧ r ≤ r1 ∧ c0 ≤ c ∧ c ≤ c1 := by
            intro r c hcell
            have : (r, c) ∈ coordsOf narr label := mem_coordsOf.mpr hcell
            rw [hcoords] at this
            exact hmem (r, c) this
          rw [label_size_via_bbox, hcoords, hbb]
          show some (countNonzero (zeroNonLabel label (cropGrid narr r0 c0 r1 c1))) = _
          rw [countNonzero_zeroNonLabel h0]
          rw [← List.count_flatten]
          rw [count_cropGrid hb hr hc]

theorem cellAt_map {g : Mask} {f : Int → Int} {r c : Nat} :
    cellAt (g.map (List.map f)) r c = (cellAt g r c).map f := by
  rw [cellAt, cellAt, List.getElem?_map]
  cases h : g[r]? with
  | none => simp
  | some row => simp [List.getElem?_map]

theorem count_map_of_iff {f : Int → Int} {label : Int}
    (hf : ∀ v, f v = label ↔ v = label) (l : List Int) :
    (l.map f).count label = l.count label := by
  rw [List.count_eq_countP, List.count_eq_countP, List.countP_map]
  refine List.countP_congr ?_
  intro v _
  simp [Function.comp, beq_iff_eq, hf]

theorem countLabel_map_of_iff {g : Mask} {f : Int → Int} {label : Int}
    (hf : ∀ v, f v = label ↔ v = label) :
    countLabel (g.map (List.map f)) label = countLabel g label := by
  rw [countLabel, countLabel, ← List.map_flatten]
  exact count_map_of_iff hf g.flatten

theorem mem_flatten_map_of_iff {g : Mask} {f : Int → Int} {label : Int}
    (hf : ∀ v, f v = label ↔ v = label) :
    label ∈ (g.map (List.map f)).flatten ↔ label ∈ g.flatten := by
  rw [← List.map_flatten, List.mem_map]
  constructor
  · rintro ⟨v, hv, hfv⟩
    rw [hf v] at hfv
    exact hfv ▸ hv
  · intro h
    exact ⟨label, h, (hf label).mpr rfl⟩

theorem stageCell_eq_label_iff {narr : Mask} {mn mx label : Int} {done : List Int}
    (h0 : label ≠ 0) (hk : label ∉ done ∨ keepLabel narr mn mx label = true) :
    ∀ v, stageCell narr mn mx done v = label ↔ v = label := by
  intro v
  rw [stageCell]
  by_cases hcond : v ≠ 0 ∧ v ∈ done ∧ keepLabel narr mn mx v = false
  · rw [if_pos hcond]
    constructor
    · intro h; exact absurd h.symm h0
    · rintro rfl
      rcases hk with h | h
      · exact absurd hcond.2.1 h
      · rw [hcond.2.2] at h; exact Bool.noConfusion h
  · rw [if_neg hcond]

theorem stageMask_congr {narr : Mask} {mn mx : Int} {d1 d2 : List Int}
    (h : ∀ v, v ≠ 0 → (v ∈ d1 ↔ v ∈ d2)) :
    stageMask narr mn mx d1 = stageMask narr mn mx d2 := by
  have hcells : stageCell narr mn mx d1 = stageCell narr mn mx d2 := by
    funext v
    rw [stageCell, stageCell]
    by_cases hc : v ≠ 0 ∧ v ∈ d1 ∧ keepLabel narr mn mx v = false
    · rw [if_pos hc, if_pos ⟨hc.1, (h v hc.1).mp hc.2.1, hc.2.2⟩]
    · rw [if_neg hc, if_neg ?_]
      rintro ⟨hv0, hvm, hvk⟩
      exact hc ⟨hv0, (h v hv0).mpr hvm, hvk⟩
  rw [stageMask, stageMask, hcells]

theorem stageMask_nil (narr : Mask) (mn mx : Int) :
    stageMask narr mn mx [] = narr := by
  have hcells : stageCell narr mn mx [] = fun v => v := by
    funext v
    rw [stageCell]
    simp
  rw [stageMask, hcells]
  simp [List.map_id]

theorem processLabel_stage {narr : Mask} {mn mx label : Int} {done : List Int}
    (h0 : label ≠ 0) (hocc : label ∈ narr.flatten) (hnd : label ∉ done) :
    processLabel (stageMask narr mn mx done) label mn mx =
      stageMask narr mn mx (label :: done) := by
  have hiff : ∀ v, stageCell narr mn mx done v = label ↔ v = label :=
    stageCell_eq_label_iff h0 (Or.inl hnd)
  have hoccst : label ∈ (stageMask narr mn mx done).flatten :=
    (mem_flatten_map_of_iff hiff).mpr hocc
  have hcount : countLabel (stageMask narr mn mx done) label = countLabel narr label :=
    countLabel_map_of_iff hiff
  have hsize : label_size_via_bbox (stageMask narr mn mx done) label =
      some (countLabel narr label) := by
    rw [label_size_via_bbox_eq h0 hoccst, hcount]
  rw [processLabel, hsize]
  show (if ¬ (mn ≤ (countLabel narr label : Int) ∧ (countLabel narr label : Int) ≤ mx)
      then zeroLabel (stageMask narr mn mx done) label
      else stageMask narr mn mx done) = _
  have hkeep : (mn ≤ (countLabel narr label : Int) ∧ (countLabel narr label : Int) ≤ mx)
      ↔ keepLabel narr mn mx label = true := by
    rw [keepLabel, keepSize, decide_eq_true_iff]
  by_cases hk : keepLabel narr mn mx label = true
  · rw [if_neg (by rw [hkeep]; exact not_not_intro hk)]
    have hcells : stageCell narr mn mx done = stageCell narr mn mx (label :: done) := by
      funext v
      rw [stageCell, stageCell]
      by_cases hc : v ≠ 0 ∧ v ∈ done ∧ keepLabel narr mn mx v = false
      · rw [if_pos hc, if_pos ⟨hc.1, List.mem_cons.mpr (Or.inr hc.2.1), hc.2.2⟩]
      · rw [if_neg hc, if_neg ?_]
        rintro ⟨hv0, hvm, hvk⟩
        rcases List.mem_cons.mp hvm with rfl | hvm2
        · rw [hvk] at hk; exact Bool.noConfusion hk
        · exact hc ⟨hv0, hvm2, hvk⟩
    rw [stageMask, stageMask, hcells]
  · rw [if_pos (by rw [hkeep]; exact hk)]
    have hkf : keepLabel narr mn mx label = false := by
      cases hkl : keepLabel narr mn mx label with
      | false => rfl
      | true => exact absurd hkl hk
    have hcells : (fun v => if v = label then (0 : Int) else v) ∘ stageCell narr mn mx done
        = stageCell narr mn mx (label :: done) := by
      funext v
      show (if stageCell narr mn mx done v = label then (0 : Int)
          else stageCell narr mn mx done v) = stageCell narr mn mx (label :: done) v
      by_cases hvl : v = label
      · subst hvl
        have hsv : stageCell narr mn mx done v = v := by
          rw [stageCell, if_neg]
          rintro ⟨-, hmem, -⟩; exact hnd hmem
        rw [hsv, if_pos rfl, stageCell, if_pos ⟨h0, List.mem_cons_self v done, hkf⟩]
      · have hsv : stageCell narr mn mx done v ≠ label := fun h => hvl ((hiff v).mp h)
        rw [if_neg hsv, stageCell, stageCell]
        by_cases hc : v ≠ 0 ∧ v ∈ done ∧ keepLabel narr mn mx v = false
        · rw [if_pos hc, if_pos ⟨hc.1, List.mem_cons.mpr (Or.inr hc.2.1), hc.2.2⟩]
        · rw [if_neg hc, if_neg ?_]
          rintro ⟨hv0, hvm, hvk⟩
          rcases List.mem_cons.mp hvm with rfl | hvm2
          · exact hvl rfl
          · exact hc ⟨hv0, hvm2, hvk⟩
    rw [zeroLabel, stageMask, stageMask, List.map_map]
    congr 1
    funext row
    show List.map _ (List.map _ row) = _
    rw [List.map_map, hcells]

theorem mem_uniqueValues {narr : Mask} {v : Int} :
    v ∈ uniqueValues narr ↔ v ∈ narr.flatten := by
  rw [uniqueValues]
  rw [(List.perm_insertionSort _ _).mem_iff]
  exact List.mem_dedup

theorem nodup_uniqueValues (narr : Mask) : (uniqueValues narr).Nodup := by
  rw [uniqueValues]
  exact (List.perm_insertionSort _ _).nodup_iff.mpr (List.nodup_dedup _)

theorem processLabels_stage {narr : Mask} {mn mx : Int} :
    ∀ (L done : List Int), L.Nodup → (∀ l ∈ L, l ∉ done) →
    (∀ l ∈ L, l ∈ narr.flatten ∨ l = 0) →
    processLabels (stageMask narr mn mx done) mn mx L =
      stageMask narr mn mx (L ++ done) := by
  intro L
  induction L with
  | nil => intro done _ _ _; simp [processLabels]
  | cons l L ih =>
      intro done hnd hdis hocc
      rw [processLabels, List.foldl_cons]
      by_cases hl0 : l = 0
      · rw [if_pos hl0]
        have hrec := ih done (List.Nodup.of_cons hnd)
          (fun x hx => hdis x (List.mem_cons.mpr (Or.inr hx)))
          (fun x hx => hocc x (List.mem_cons.mpr (Or.inr hx)))
        rw [processLabels] at hrec
        rw [hrec]
        refine stageMask_congr ?_
        intro v hv
        subst hl0
        simp only [List.cons_append, List.mem_append, List.mem_cons, hv]
        tauto
      · rw [if_neg hl0]
        have hlocc : l ∈ narr.flatten :=
          (hocc l (List.mem_cons.mpr (Or.inl rfl))).resolve_right hl0
        have hldis : l ∉ done := hdis l (List.mem_cons.mpr (Or.inl rfl))
        rw [processLabel_stage hl0 hlocc hldis]
        have hrec := ih (l :: done) (List.Nodup.of_cons hnd)
          (fun x hx hmem => by
            rcases List.mem_cons.mp hmem with rfl | h2
            · exact (List.nodup_cons.mp hnd).1 hx
            · exact hdis x (List.mem_cons.mpr (Or.inr hx)) h2)
          (fun x hx => hocc x (List.mem_cons.mpr (Or.inr hx)))
        rw [processLabels] at hrec
        rw [hrec]
        refine stageMask_congr ?_
        intro v hv
        simp only [List.cons_append, List.mem_append, List.mem_cons]
        tauto

theorem processLabels_eq_filterSpec {narr : Mask} {mn mx : Int} {L : List Int}
    (hnd : L.Nodup) (hmem : ∀ v : Int, v ∈ L ↔ v ∈ narr.flatten) :
    processLabels narr mn mx L = filterSpec narr mn mx := by
  have hstage : processLabels narr mn mx L = stageMask narr mn mx (L ++ []) := by
    conv_lhs => rw [← stageMask_nil narr mn mx]
    exact processLabels_stage L [] hnd (by simp) (fun l hl => Or.inl ((hmem l).mp hl))
  rw [hstage, List.append_nil, stageMask, filterSpec]
  refine List.map_congr_left ?_
  intro row hrow
  refine List.map_congr_left ?_
  intro v hv
  have hvmem : v ∈ narr.flatten := List.mem_flatten.mpr ⟨row, hrow, hv⟩
  rw [stageCell, specCell]
  by_cases h0v : v = 0
  · simp [h0v]
  · rw [if_neg h0v]
    by_cases hk : keepLabel narr mn mx v = true
    · rw [if_pos hk, if_neg ?_]
      rintro ⟨-, -, hkf⟩
      rw [hkf] at hk
      exact Bool.noConfusion hk
    · have hkf : keepLabel narr mn mx v = false := by
        cases h : keepLabel narr mn mx v with
        | false => rfl
        | true => exact absurd h hk
      rw [if_pos ⟨h0v, (hmem v).mpr hvmem, hkf⟩, if_neg (by rw [hkf]; simp)]

theorem filter_index_image_eq_filterSpec (narr : Mask) (mn mx : Int) :
    filter_index_image narr mn mx = filterSpec narr mn mx :=
  processLabels_eq_filterSpec (nodup_uniqueValues narr) (fun _ => mem_uniqueValues)

theorem specCell_eq_self_iff_keep {narr : Mask} {mn mx v : Int} (h0 : v ≠ 0) :
    ∀ w, specCell narr mn mx w = v ↔ (w = v ∧ keepLabel narr mn mx v = true) := by
  intro w
  rw [specCell]
  by_cases hw0 : w = 0
  · rw [if_pos hw0]
    exact ⟨fun h => absurd h.symm h0, fun h => absurd (hw0 ▸ h.1.symm) h0⟩
  · rw [if_neg hw0]
    by_cases hk : keepLabel narr mn mx w = true
    · rw [if_pos hk]
      exact ⟨fun h => ⟨h, h ▸ hk⟩, fun h => h.1⟩
    · rw [if_neg hk]
      refine ⟨fun h => absurd h.symm h0, ?_⟩
      rintro ⟨rfl, hkv⟩
      exact absurd hkv hk

theorem countLabel_filterSpec {narr : Mask} {mn mx v : Int} (h0 : v ≠ 0) :
    countLabel (filterSpec narr mn mx) v =
      if keepLabel narr mn mx v = true then countLabel narr v else 0 := by
  rw [countLabel, filterSpec, ← List.map_flatten, List.count_eq_countP, List.countP_map]
  by_cases hk : keepLabel narr mn mx v = true
  · rw [if_pos hk, countLabel, List.count_eq_countP]
    refine List.countP_congr ?_
    intro w _
    simp only [Function.comp, beq_iff_eq]
    rw [specCell_eq_self_iff_keep h0 w]
    simp [hk]
  · rw [if_neg hk]
    rw [List.countP_eq_zero]
    intro w _
    simp only [Function.comp, beq_iff_eq]
    rw [specCell_eq_self_iff_keep h0 w]
    rintro ⟨-, hkv⟩
    exact absurd hkv hk

theorem mem_flatten_filterSpec {narr : Mask} {mn mx v : Int} (h0 : v ≠ 0) :
    v ∈ (filterSpec narr mn mx).flatten ↔
      (v ∈ narr.flatten ∧ keepLabel narr mn mx v = true) := by
  rw [filterSpec, ← List.map_flatten, List.mem_map]
  constructor
  · rintro ⟨w, hw, hwv⟩
    obtain ⟨rfl, hk⟩ := (specCell_eq_self_iff_keep h0 w).mp hwv
    exact ⟨hw, hk⟩
  · rintro ⟨hv, hk⟩
    exact ⟨v, hv, (specCell_eq_self_iff_keep h0 v).mpr ⟨rfl, hk⟩⟩

theorem cellAt_filterSpec {narr : Mask} {mn mx : Int} {r c : Nat} :
    cellAt (filterSpec narr mn mx) r c = (cellAt narr r c).map (specCell narr mn mx) :=
  cellAt_map

theorem keepLabel_iff {narr : Mask} {mn mx v : Int} :
    keepLabel narr mn mx v = true ↔
      (mn ≤ (countLabel narr v : Int) ∧ (countLabel narr v : Int) ≤ mx) := by
  rw [keepLabel, keepSize, decide_eq_true_iff]

/-- C1: for a well-formed 2-D integer mask and a valid range
`0 ≤ min_size ≤ max_size`, after `filter_index_image` returns, every non-zero
label still present in the mask has a pixel count (recomputed by a full-grid
scan on the result) within the inclusive range, and every label whose original
pixel count was outside the range has all of its cells set to 0; bounds being
inclusive, a label of size exactly `min_size` or `max_size` passes the test. -/
theorem C1_size_filter_correct (narr : Mask) (mn mx : Int)
    (hrect : Rectangular narr) (h0 : 0 ≤ mn) (hle : mn ≤ mx) (v : Int) (hv : v ≠ 0) :
    (v ∈ (filter_index_image narr mn mx).flatten →
      mn ≤ (countLabel (filter_index_image narr mn mx) v : Int) ∧
      (countLabel (filter_index_image narr mn mx) v : Int) ≤ mx) ∧
    (¬ (mn ≤ (countLabel narr v : Int) ∧ (countLabel narr v : Int) ≤ mx) →
      ∀ r c, cellAt narr r c = some v →
        cellAt (filter_index_image narr mn mx) r c = some 0) := by
  rw [filter_index_image_eq_filterSpec]
  constructor
  · intro hmem
    obtain ⟨hvm, hk⟩ := (mem_flatten_filterSpec hv).mp hmem
    rw [countLabel_filterSpec hv, if_pos hk]
    exact keepLabel_iff.mp hk
  · intro hout r c hcell
    have hkf : ¬ keepLabel narr mn mx v = true := fun hk => hout (keepLabel_iff.mp hk)
    rw [cellAt_filterSpec, hcell]
    simp only [Option.map_some']
    rw [specCell, if_neg hv, if_neg hkf]

/-- C1 witness: on a 2×3 mask with label 1 of size 3 and label 2 of size 2,
range `[3, 5]`, label 2 is out of range and all its cells become 0. -/
theorem C1_size_filter_correct_witness :
    Rectangular [[1, 1, 2], [0, 1, 2]] ∧ (0 : Int) ≤ 3 ∧ (3 : Int) ≤ 5 ∧ (2 : Int) ≠ 0 ∧
    ((2 ∈ (filter_index_image [[1, 1, 2], [0, 1, 2]] 3 5).flatten →
      3 ≤ (countLabel (filter_index_image [[1, 1, 2], [0, 1, 2]] 3 5) 2 : Int) ∧
      (countLabel (filter_index_image [[1, 1, 2], [0, 1, 2]] 3 5) 2 : Int) ≤ 5) ∧
    (¬ (3 ≤ (countLabel [[1, 1, 2], [0, 1, 2]] 2 : Int) ∧
        (countLabel [[1, 1, 2], [0, 1, 2]] 2 : Int) ≤ 5) →
      ∀ r c, cellAt [[1, 1, 2], [0, 1, 2]] r c = some 2 →
        cellAt (filter_index_image [[1, 1, 2], [0, 1, 2]] 3 5) r c = some 0)) :=
  ⟨by decide, by decide, by decide, by decide,
   C1_size_filter_correct [[1, 1, 2], [0, 1, 2]] 3 5 (by decide) (by decide) (by decide)
     2 (by decide)⟩

/-- C2: for every label value present in the mask, the size computed by the
bounding-box shortcut (crop the minimal bounding box, zero the cells not equal
to the label, count the rest) equals the label's true pixel count by a
full-grid scan — also when the label splits into disjoint regions, whose
combined count is one size. -/
theorem C2_bbox_size_eq_full_scan (narr : Mask) (label : Int) (h0 : label ≠ 0)
    (hocc : label ∈ narr.flatten) :
    label_size_via_bbox narr label = some (countLabel narr label) :=
  label_size_via_bbox_eq h0 hocc

/-- C2 witness: label 1 occupies two disjoint regions of the mask; the
bounding-box size equals the full-scan count 3. -/
theorem C2_bbox_size_eq_full_scan_witness :
    (1 : Int) ≠ 0 ∧ 1 ∈ ([[1, 0, 1], [0, 0, 1]] : Mask).flatten ∧
    label_size_via_bbox [[1, 0, 1], [0, 0, 1]] 1 =
      some (countLabel [[1, 0, 1], [0, 0, 1]] 1) :=
  ⟨by decide, by decide, C2_bbox_size_eq_full_scan [[1, 0, 1], [0, 0, 1]] 1
    (by decide) (by decide)⟩

/-- C3 counterexample: with an inverted range (`max_size < min_size`, here
`min_size = 5`, `max_size = 2`) the call does not fail with any error — it
returns normally, with the single label removed. -/
theorem C3_counterexample :
    filter_index_image_run [[1]] 5 2 = Except.ok [[0]] ∧
      filter_index_image_run [[1]] 5 2 ≠ Except.error FilterError.invalidRangeError := by
  constructor
  · have h : filter_index_image [[1]] 5 2 = [[0]] := by decide
    rw [filter_index_image_run, h]
  · intro h
    rw [filter_index_image_run] at h
    exact Except.noConfusion h

/-- C3 amended: the operation performs no range validation and cannot fail:
for every mask and every pair of bounds — negative, inverted or otherwise —
the call returns normally with a result mask. -/
theorem C3_no_range_validation (narr : Mask) (mn mx : Int) :
    ∃ out, filter_index_image_run narr mn mx = Except.ok out :=
  ⟨filter_index_image narr mn mx, rfl⟩

/-- C4 counterexample: a 2-D integer grid holding a negative value does not
fail with `InvalidMaskError`; the call returns normally (the negative label,
of size 1, is outside `[2, 3]` and is zeroed like any other label). -/
theorem C4_counterexample :
    filter_index_image_run [[-1]] 2 3 = Except.ok [[0]] ∧
      filter_index_image_run [[-1]] 2 3 ≠ Except.error FilterError.invalidMaskError := by
  constructor
  · have h : filter_index_image [[-1]] 2 3 = [[0]] := by decide
    rw [filter_index_image_run, h]
  · intro h
    rw [filter_index_image_run] at h
    exact Except.noConfusion h

/-- C4 amended: the operation performs no mask validation: no call ever fails
with `InvalidMaskError`, and a negative cell value is processed as an ordinary
label identifier — its cells survive exactly when its pixel count lies within
the inclusive range. -/
theorem C4_no_mask_validation (narr : Mask) (mn mx : Int) (v : Int) (hv : v < 0)
    (r c : Nat) (hcell : cellAt narr r c = some v) :
    filter_index_image_run narr mn mx ≠ Except.error FilterError.invalidMaskError ∧
    (cellAt (filter_index_image narr mn mx) r c = some v ↔
      (mn ≤ (countLabel narr v : Int) ∧ (countLabel narr v : Int) ≤ mx)) := by
  have hv0 : v ≠ 0 := by omega
  constructor
  · intro h
    rw [filter_index_image_run] at h
    exact Except.noConfusion h
  · rw [filter_index_image_eq_filterSpec, cellAt_filterSpec, hcell]
    simp only [Option.map_some']
    constructor
    · intro h
      have h2 := (specCell_eq_self_iff_keep hv0 v).mp (Option.some.inj h)
      exact keepLabel_iff.mp h2.2
    · intro h
      have hk : keepLabel narr mn mx v = true := keepLabel_iff.mpr h
      rw [specCell, if_neg hv0, if_pos hk]

/-- C4 witness: the mask `[[-1, -1]]` has the negative label `-1` with pixel
count 2, inside `[2, 3]`; its cell survives and no error is raised. -/
theorem C4_no_mask_validation_witness :
    (-1 : Int) < 0 ∧ cellAt [[-1, -1]] 0 0 = some (-1) ∧
    (filter_index_image_run [[-1, -1]] 2 3 ≠ Except.error FilterError.invalidMaskError ∧
    (cellAt (filter_index_image [[-1, -1]] 2 3) 0 0 = some (-1) ↔
      (2 ≤ (countLabel [[-1, -1]] (-1) : Int) ∧ (countLabel [[-1, -1]] (-1) : Int) ≤ 3))) :=
  ⟨by decide, by decide,
   C4_no_mask_validation [[-1, -1]] 2 3 (-1) (by decide) 0 0 (by decide)⟩

/-- C5: a label whose pixel count lies within the range keeps every one of its
cells with its original value (no relabeling), and removal of an out-of-range
label is all-or-nothing: each of its cells becomes 0, none survives. -/
theorem C5_no_partial_removal (narr : Mask) (mn mx : Int) (h0 : 0 ≤ mn)
    (hle : mn ≤ mx) (v : Int) (hv : v ≠ 0) (r c : Nat)
    (hcell : cellAt narr r c = some v) :
    ((mn ≤ (countLabel narr v : Int) ∧ (countLabel narr v : Int) ≤ mx) →
      cellAt (filter_index_image narr mn mx) r c = some v) ∧
    (¬ (mn ≤ (countLabel narr v : Int) ∧ (countLabel narr v : Int) ≤ mx) →
      cellAt (filter_index_image narr mn mx) r c = some 0) := by
  rw [filter_index_image_eq_filterSpec, cellAt_filterSpec, hcell]
  constructor
  · intro h
    have hk := keepLabel_iff.mpr h
    simp only [Option.map_some']
    rw [specCell, if_neg hv, if_pos hk]
  · intro h
    have hkf : ¬ keepLabel narr mn mx v = true := fun hk => h (keepLabel_iff.mp hk)
    simp only [Option.map_some']
    rw [specCell, if_neg hv, if_neg hkf]

/-- C5 witness: in `[[1, 1, 2], [0, 1, 2]]` with range `[2, 5]` the label 2
(count 2, within bounds) keeps its cell at row 0, column 2. -/
theorem C5_no_partial_removal_witness :
    (0 : Int) ≤ 2 ∧ (2 : Int) ≤ 5 ∧ (2 : Int) ≠ 0 ∧
    cellAt [[1, 1, 2], [0, 1, 2]] 0 2 = some 2 ∧
    (((2 : Int) ≤ (countLabel [[1, 1, 2], [0, 1, 2]] 2 : Int) ∧
        (countLabel [[1, 1, 2], [0, 1, 2]] 2 : Int) ≤ 5) →
      cellAt (filter_index_image [[1, 1, 2], [0, 1, 2]] 2 5) 0 2 = some 2) ∧
    (¬ ((2 : Int) ≤ (countLabel [[1, 1, 2], [0, 1, 2]] 2 : Int) ∧
        (countLabel [[1, 1, 2], [0, 1, 2]] 2 : Int) ≤ 5) →
      cellAt (filter_index_image [[1, 1, 2], [0, 1, 2]] 2 5) 0 2 = some 0) := by
  have h := C5_no_partial_removal [[1, 1, 2], [0, 1, 2]] 2 5 (by decide) (by decide)
    2 (by decide) 0 2 (by decide)
  exact ⟨by decide, by decide, by decide, by decide, h.1, h.2⟩

theorem filterSpec_idem (narr : Mask) (mn mx : Int) :
    filterSpec (filterSpec narr mn mx) mn mx = filterSpec narr mn mx := by
  conv_lhs => rw [filterSpec, filterSpec, List.map_map]
  rw [filterSpec]
  refine List.map_congr_left ?_
  intro row _
  simp only [Function.comp_apply]
  rw [List.map_map]
  refine List.map_congr_left ?_
  intro w _
  simp only [Function.comp_apply]
  show specCell (filterSpec narr mn mx) mn mx (specCell narr mn mx w) = specCell narr mn mx w
  by_cases hw0 : w = 0
  · have hs : specCell narr mn mx w = 0 := by rw [hw0, specCell, if_pos rfl]
    rw [hs, specCell, if_pos rfl]
  · by_cases hk : keepLabel narr mn mx w = true
    · have hs : specCell narr mn mx w = w := by rw [specCell, if_neg hw0, if_pos hk]
      have hcount : countLabel (filterSpec narr mn mx) w = countLabel narr w := by
        rw [countLabel_filterSpec hw0, if_pos hk]
      have hk2 : keepLabel (filterSpec narr mn mx) mn mx w = true := by
        rw [keepLabel, hcount]
        exact hk
      rw [hs, specCell, if_neg hw0, if_pos hk2]
    · have hs : specCell narr mn mx w = 0 := by rw [specCell, if_neg hw0, if_neg hk]
      rw [hs, specCell, if_pos rfl]

/-- C6: the filter is idempotent: applying it twice with the same valid range
gives the same mask as applying it once. -/
theorem C6_idempotent (narr : Mask) (a b : Int) (h0 : 0 ≤ a) (hle : a ≤ b) :
    filter_index_image (filter_index_image narr a b) a b =
      filter_index_image narr a b := by
  rw [filter_index_image_eq_filterSpec narr,
    filter_index_image_eq_filterSpec (filterSpec narr a b)]
  exact filterSpec_idem narr a b

/-- C6 witness: idempotence at a concrete mask and the valid range `[3, 5]`. -/
theorem C6_idempotent_witness :
    (0 : Int) ≤ 3 ∧ (3 : Int) ≤ 5 ∧
    filter_index_image (filter_index_image [[1, 1, 2], [0, 1, 2]] 3 5) 3 5 =
      filter_index_image [[1, 1, 2], [0, 1, 2]] 3 5 :=
  ⟨by decide, by decide, C6_idempotent [[1, 1, 2], [0, 1, 2]] 3 5 (by decide) (by decide)⟩

/-- C7: background preservation: every cell holding 0 before filtering holds 0
after; background cells are never counted toward a label's size (the count of a
non-zero label is unchanged when background cells are discarded first); and a
mask with no non-zero label is returned unchanged. -/
theorem C7_background_preserved (narr : Mask) (mn mx : Int) :
    (∀ r c, cellAt narr r c = some 0 →
      cellAt (filter_index_image narr mn mx) r c = some 0) ∧
    (∀ v : Int, v ≠ 0 →
      countLabel narr v = (narr.flatten.filter (fun w => w != 0)).count v) ∧
    ((∀ v ∈ narr.flatten, v = 0) → filter_index_image narr mn mx = narr) := by
  refine ⟨?_, ?_, ?_⟩
  · intro r c hcell
    rw [filter_index_image_eq_filterSpec, cellAt_filterSpec, hcell]
    simp only [Option.map_some']
    rw [specCell, if_pos rfl]
  · intro v hv
    rw [countLabel]
    exact (List.count_filter (by simp [hv])).symm
  · intro hall
    rw [filter_index_image_eq_filterSpec, filterSpec]
    have hrows : ∀ row ∈ narr, List.map (specCell narr mn mx) row = row := by
      intro row hrow
      have hcells : ∀ v ∈ row, specCell narr mn mx v = v := by
        intro v hv
        have h0 : v = 0 := hall v (List.mem_flatten.mpr ⟨row, hrow, hv⟩)
        rw [h0, specCell, if_pos rfl]
      calc List.map (specCell narr mn mx) row
          = List.map id row := List.map_congr_left (fun a ha => hcells a ha)
        _ = row := List.map_id row
    calc narr.map (List.map (specCell narr mn mx))
        = narr.map id := List.map_congr_left hrows
      _ = narr := List.map_id narr

/-- C7 witness: a mask with a background cell, applied at range `[3, 5]`;
the background cell stays 0, the count of label 2 ignores background cells,
and the all-background mask `[[0], [0]]` is unchanged. -/
theorem C7_background_preserved_witness :
    (cellAt [[1, 1, 2], [0, 1, 2]] 1 0 = some 0 →
      cellAt (filter_index_image [[1, 1, 2], [0, 1, 2]] 3 5) 1 0 = some 0) ∧
    ((2 : Int) ≠ 0 →
      countLabel [[1, 1, 2], [0, 1, 2]] 2 =
        (([[1, 1, 2], [0, 1, 2]] : Mask).flatten.filter (fun w => w != 0)).count 2) ∧
    ((∀ v ∈ ([[1, 1, 2], [0, 1, 2]] : Mask).flatten, v = 0) →
      filter_index_image [[1, 1, 2], [0, 1, 2]] 3 5 = [[1, 1, 2], [0, 1, 2]]) := by
  have h := C7_background_preserved [[1, 1, 2], [0, 1, 2]] 3 5
  exact ⟨fun hc => h.1 1 0 hc, fun hv => h.2.1 2 hv, fun hall => h.2.2 hall⟩

/-- C8: shape preservation and frame property: the result has exactly the same
row count and the same length for every row as the input (the in-place mutation
of the source is modelled by value equality), and a cell changes only when it
held a non-zero label whose pixel count is outside the range — in which case it
becomes 0; every other cell is untouched. -/
theorem C8_shape_and_frame (narr : Mask) (mn mx : Int) :
    (filter_index_image narr mn mx).length = narr.length ∧
    (∀ r : Nat, ((filter_index_image narr mn mx)[r]?).map List.length =
      (narr[r]?).map List.length) ∧
    (∀ r c : Nat, ∀ v : Int, cellAt narr r c = some v →
      cellAt (filter_index_image narr mn mx) r c = some v ∨
      (v ≠ 0 ∧ ¬ (mn ≤ (countLabel narr v : Int) ∧ (countLabel narr v : Int) ≤ mx) ∧
        cellAt (filter_index_image narr mn mx) r c = some 0)) := by
  rw [filter_index_image_eq_filterSpec]
  refine ⟨?_, ?_, ?_⟩
  · rw [filterSpec, List.length_map]
  · intro r
    rw [filterSpec, List.getElem?_map]
    cases narr[r]? with
    | none => rfl
    | some row => simp [List.length_map]
  · intro r c v hcell
    rw [cellAt_filterSpec, hcell]
    simp only [Option.map_some']
    by_cases hv0 : v = 0
    · left
      rw [specCell, if_pos hv0, hv0]
    · by_cases hk : keepLabel narr mn mx v = true
      · left
        rw [specCell, if_neg hv0, if_pos hk]
      · right
        refine ⟨hv0, fun h => hk (keepLabel_iff.mpr h), ?_⟩
        rw [specCell, if_neg hv0, if_neg hk]

/-- C9: the final result does not depend on the order in which the distinct
labels are enumerated and processed: running the loop over any permutation of
`np.unique`'s output produces exactly the result of `filter_index_image`
(which, being a pure function of its arguments, is identical on every run). -/
theorem C9_order_independent (narr : Mask) (mn mx : Int) (L : List Int)
    (hperm : L.Perm (uniqueValues narr)) :
    processLabels narr mn mx L = filter_index_image narr mn mx := by
  rw [filter_index_image_eq_filterSpec]
  exact processLabels_eq_filterSpec
    (hperm.nodup_iff.mpr (nodup_uniqueValues narr))
    (fun v => (hperm.mem_iff).trans mem_uniqueValues)

/-- C9 witness: processing the labels of `[[1, 2], [0, 2]]` in the reversed
order `[2, 1, 0]` yields the same mask as `filter_index_image`. -/
theorem C9_order_independent_witness :
    ([2, 1, 0] : List Int).Perm (uniqueValues [[1, 2], [0, 2]]) ∧
    processLabels [[1, 2], [0, 2]] 2 5 [2, 1, 0] =
      filter_index_image [[1, 2], [0, 2]] 2 5 :=
  ⟨by decide, C9_order_independent [[1, 2], [0, 2]] 2 5 [2, 1, 0] (by decide)⟩

/-- C10: calling the filter with an inverted range (`max_size < min_size`) on a
rectangular integer mask raises no error: the inclusive range test is false for
every label, so every non-zero cell is set to 0 and an all-background mask of
the same shape is returned. -/
theorem C10_inverted_range_removes_all (narr : Mask) (mn mx : Int)
    (hrect : Rectangular narr) (hinv : mx < mn) :
    filter_index_image_run narr mn mx =
      Except.ok (narr.map (List.map (fun _ => (0 : Int)))) := by
  rw [filter_index_image_run, filter_index_image_eq_filterSpec, filterSpec]
  have hcells : specCell narr mn mx = fun _ => (0 : Int) := by
    funext v
    rw [specCell]
    by_cases h0 : v = 0
    · rw [if_pos h0]
    · rw [if_neg h0, if_neg ?_]
      intro hk
      obtain ⟨h1, h2⟩ := keepLabel_iff.mp hk
      omega
  rw [hcells]

/-- C10 witness: the inverted range `[5, 2]` on a concrete rectangular mask
returns the all-zero mask of the same shape, with no error. -/
theorem C10_inverted_range_removes_all_witness :
    Rectangular [[1, 2], [0, 3]] ∧ (2 : Int) < 5 ∧
    filter_index_image_run [[1, 2], [0, 3]] 5 2 =
      Except.ok (([[1, 2], [0, 3]] : Mask).map (List.map (fun _ => (0 : Int)))) :=
  ⟨by decide, by decide,
   C10_inverted_range_removes_all [[1, 2], [0, 3]] 5 2 (by decide) (by decide)⟩

/-- C8 witness: shape and frame at a concrete mask and range, including the
frame alternative discharged at the surviving cell `(0, 1)`. -/
theorem C8_shape_and_frame_witness :
    (filter_index_image [[1, 2], [0, 2]] 2 5).length = ([[1, 2], [0, 2]] : Mask).length ∧
    (∀ r : Nat, ((filter_index_image [[1, 2], [0, 2]] 2 5)[r]?).map List.length =
      (([[1, 2], [0, 2]] : Mask)[r]?).map List.length) ∧
    (∀ r c : Nat, ∀ v : Int, cellAt [[1, 2], [0, 2]] r c = some v →
      cellAt (filter_index_image [[1, 2], [0, 2]] 2 5) r c = some v ∨
      (v ≠ 0 ∧ ¬ ((2 : Int) ≤ (countLabel [[1, 2], [0, 2]] v : Int) ∧
          (countLabel [[1, 2], [0, 2]] v : Int) ≤ 5) ∧
        cellAt (filter_index_image [[1, 2], [0, 2]] 2 5) r c = some 0)) :=
  C8_shape_and_frame [[1, 2], [0, 2]] 2 5
